import Mathlib

/-!
Shallow embedding of the TODO REST service (`src/main.py`).

The service keeps three process-local collections (tasks, projects, users)
as ordered Python lists, generates identifiers with `uuid4`, and exposes
CRUD endpoints with two cross-entity checks (a Task must reference an
existing Project, a Project an existing User).

Modelling choices:
* `UUID` values are modelled as `Nat`.  `uuid4` generation is modelled by a
  counter `nextId` carried in the server state: each generated identifier
  is the current counter value and the counter is incremented, which gives
  the "fresh unique identifier" behaviour the generator provides.
  Client-supplied identifiers (the `id` field of a full `Task` payload on
  PUT) remain arbitrary `Nat`s.
* Python lists become Lean `List`s; mutation becomes explicit state
  passing.  A handler returns a `Resp` (either `ok payload` or
  `err status detail`, mirroring `HTTPException(status_code, detail)`)
  together with the next server state.
* `pydantic` model classes become structures; `Task` extends `TaskCreate`
  with an `id` field, and likewise for `Project`/`User`.
-/

namespace TodoApp

/-- `TaskCreate` pydantic model: `{title, description?, completed=false, project_id}`. -/
structure TaskCreate where
  title : String
  description : Option String
  completed : Bool
  project_id : Nat
deriving DecidableEq, Repr

/-- `Task` pydantic model: a `TaskCreate` plus a (generated or client-sent) `id`. -/
structure Task where
  title : String
  description : Option String
  completed : Bool
  project_id : Nat
  id : Nat
deriving DecidableEq, Repr

/-- `ProjectCreate` pydantic model: `{name, user_id}`. -/
structure ProjectCreate where
  name : String
  user_id : Nat
deriving DecidableEq, Repr

/-- `Project` pydantic model: a `ProjectCreate` plus an `id`. -/
structure Project where
  name : String
  user_id : Nat
  id : Nat
deriving DecidableEq, Repr

/-- `UserCreate` pydantic model: `{name}`. -/
structure UserCreate where
  name : String
deriving DecidableEq, Repr

/-- `User` pydantic model: a `UserCreate` plus an `id`. -/
structure User where
  name : String
  id : Nat
deriving DecidableEq, Repr

/-- Handler outcome: `ok` is a 200 response with a JSON payload, `err` an
`HTTPException(status_code=..., detail=...)`. -/
inductive Resp (α : Type) where
  | ok : α → Resp α
  | err : Nat → String → Resp α
deriving DecidableEq, Repr

/-- The whole process-local mutable state: the three repository backing
lists (`task_repo.tasks`, `project_repo.projects`, `user_repo.users`) plus
the fresh-identifier counter modelling `uuid4`. -/
structure ServerState where
  tasks : List Task
  projects : List Project
  users : List User
  nextId : Nat
deriving DecidableEq, Repr

/-- The state at process start: all three collections empty. -/
def initialState : ServerState := ⟨[], [], [], 0⟩

namespace TaskRepository

/-- `TaskRepository.get`: linear scan, first Task whose `id` equals `task_id`,
`None` if absent. -/
def get (tasks : List Task) (task_id : Nat) : Option Task :=
  tasks.find? (fun task => task.id == task_id)

/-- `TaskRepository.create`: build a `Task` from the `TaskCreate` fields plus a
generated `id`, append it, return it together with the new list. -/
def create (tasks : List Task) (task_data : TaskCreate) (freshId : Nat) :
    Task × List Task :=
  let task : Task := ⟨task_data.title, task_data.description,
    task_data.completed, task_data.project_id, freshId⟩
  (task, tasks ++ [task])

/-- `TaskRepository.update`: scan for the first Task whose `id` equals
`task_id`, overwrite that slot with `new_task` (exactly the payload,
including its own `id`) and return `new_task`; `none` when no Task
matches (the Python method returns `None` and leaves the list unchanged). -/
def update (tasks : List Task) (task_id : Nat) (new_task : Task) :
    Option (List Task) :=
  match tasks with
  | [] => none
  | task :: rest =>
    if task.id == task_id then
      some (new_task :: rest)
    else
      match update rest task_id new_task with
      | some rest2 => some (task :: rest2)
      | none => none

/-- `TaskRepository.delete`: remove the first Task whose `id` equals
`task_id`; `none` models the `False` return (list unchanged), `some`
the `True` return with the element removed. -/
def delete (tasks : List Task) (task_id : Nat) : Option (List Task) :=
  match tasks with
  | [] => none
  | task :: rest =>
    if task.id == task_id then
      some rest
    else
      match delete rest task_id with
      | some rest2 => some (task :: rest2)
      | none => none

end TaskRepository

namespace ProjectRepository

/-- `ProjectRepository.create`: append a `Project` built from the payload and
a generated `id`. -/
def create (projects : List Project) (project_data : ProjectCreate)
    (freshId : Nat) : Project × List Project :=
  let project : Project := ⟨project_data.name, project_data.user_id, freshId⟩
  (project, projects ++ [project])

end ProjectRepository

namespace UserRepository

/-- `UserRepository.create`: append a `User` built from the payload and a
generated `id`. -/
def create (users : List User) (user_data : UserCreate) (freshId : Nat) :
    User × List User :=
  let user : User := ⟨user_data.name, freshId⟩
  (user, users ++ [user])

end UserRepository

/-- `GET /tasks`: list all Tasks, filtered by `project_id` when the query
parameter is supplied. -/
def get_tasks (st : ServerState) (project_id : Option Nat) :
    Resp (List Task) × ServerState :=
  match project_id with
  | some pid => (.ok (st.tasks.filter (fun t => t.project_id == pid)), st)
  | none => (.ok st.tasks, st)

/-- `POST /tasks`: 400 `"Project does not exist"` unless some Project's `id`
equals the payload's `project_id`; otherwise create and return the Task. -/
def create_task (st : ServerState) (task : TaskCreate) :
    Resp Task × ServerState :=
  if ¬ st.projects.any (fun p => p.id == task.project_id) then
    (.err 400 "Project does not exist", st)
  else
    let r := TaskRepository.create st.tasks task st.nextId
    (.ok r.1, { st with tasks := r.2, nextId := st.nextId + 1 })

/-- `GET /tasks/{task_id}`: the matching Task, or 404 `"Task not found"`. -/
def get_task (st : ServerState) (task_id : Nat) : Resp Task × ServerState :=
  match TaskRepository.get st.tasks task_id with
  | some task => (.ok task, st)
  | none => (.err 404 "Task not found", st)

/-- `PUT /tasks/{task_id}`: first 400 `"Project does not exist"` unless the
payload's `project_id` names an existing Project, then 404 `"Task not
found"` unless a stored Task has `id = task_id`; on success the stored
slot is replaced by the payload (including the payload's `id`) and the
payload is returned. -/
def update_task (st : ServerState) (task_id : Nat) (task : Task) :
    Resp Task × ServerState :=
  if ¬ st.projects.any (fun p => p.id == task.project_id) then
    (.err 400 "Project does not exist", st)
  else
    match TaskRepository.update st.tasks task_id task with
    | some tasks2 => (.ok task, { st with tasks := tasks2 })
    | none => (.err 404 "Task not found", st)

/-- `DELETE /tasks/{task_id}`: 404 `"Task not found"` when no Task matches,
otherwise remove it and answer `{"message": "Task deleted"}`. -/
def delete_task (st : ServerState) (task_id : Nat) :
    Resp String × ServerState :=
  match TaskRepository.delete st.tasks task_id with
  | some tasks2 => (.ok "Task deleted", { st with tasks := tasks2 })
  | none => (.err 404 "Task not found", st)

/-- `GET /projects`: list all Projects, filtered by `user_id` when supplied. -/
def get_projects (st : ServerState) (user_id : Option Nat) :
    Resp (List Project) × ServerState :=
  match user_id with
  | some uid => (.ok (st.projects.filter (fun p => p.user_id == uid)), st)
  | none => (.ok st.projects, st)

/-- `POST /projects`: 400 `"User does not exist"` unless some User's `id`
equals the payload's `user_id`; otherwise create and return the Project. -/
def create_project (st : ServerState) (project : ProjectCreate) :
    Resp Project × ServerState :=
  if ¬ st.users.any (fun u => u.id == project.user_id) then
    (.err 400 "User does not exist", st)
  else
    let r := ProjectRepository.create st.projects project st.nextId
    (.ok r.1, { st with projects := r.2, nextId := st.nextId + 1 })

/-- `GET /users`: list all Users. -/
def get_users (st : ServerState) : Resp (List User) × ServerState :=
  (.ok st.users, st)

/-- `POST /users`: create and return the User; never fails. -/
def create_user (st : ServerState) (user : UserCreate) :
    Resp User × ServerState :=
  let r := UserRepository.create st.users user st.nextId
  (.ok r.1, { st with users := r.2, nextId := st.nextId + 1 })

/-- States reachable from the empty initial stores by the exposed endpoint
operations (one constructor per endpoint; read-only endpoints are included
and leave the state unchanged). -/
inductive Reachable : ServerState → Prop where
  | init : Reachable initialState
  | getTasks (st : ServerState) (pid : Option Nat) :
      Reachable st → Reachable (get_tasks st pid).2
  | createTask (st : ServerState) (td : TaskCreate) :
      Reachable st → Reachable (create_task st td).2
  | getTask (st : ServerState) (tid : Nat) :
      Reachable st → Reachable (get_task st tid).2
  | updateTask (st : ServerState) (tid : Nat) (t : Task) :
      Reachable st → Reachable (update_task st tid t).2
  | deleteTask (st : ServerState) (tid : Nat) :
      Reachable st → Reachable (delete_task st tid).2
  | getProjects (st : ServerState) (uid : Option Nat) :
      Reachable st → Reachable (get_projects st uid).2
  | createProject (st : ServerState) (pd : ProjectCreate) :
      Reachable st → Reachable (create_project st pd).2
  | getUsers (st : ServerState) :
      Reachable st → Reachable (get_users st).2
  | createUser (st : ServerState) (ud : UserCreate) :
      Reachable st → Reachable (create_user st ud).2

/-! ### Repository-level lemmas -/

namespace TaskRepository

theorem update_eq_none {tasks : List Task} {tid : Nat} {nt : Task} :
    update tasks tid nt = none ↔ ∀ t ∈ tasks, t.id ≠ tid := by
  induction tasks with
  | nil => simp [update]
  | cons a l ih =>
    by_cases ha : a.id = tid
    · simp [update, ha]
    · have hstep : update (a :: l) tid nt = none ↔ update l tid nt = none := by
        simp only [update, beq_iff_eq, ha, if_false]
        cases update l tid nt <;> simp
      rw [hstep, ih]
      simp [List.forall_mem_cons, ha]

theorem update_eq_some {tasks : List Task} {tid : Nat} (nt : Task)
    (h : ∃ t ∈ tasks, t.id = tid) :
    update tasks tid nt =
      some (tasks.set (tasks.findIdx (fun t => t.id == tid)) nt) := by
  induction tasks with
  | nil => simp at h
  | cons a l ih =>
    by_cases ha : a.id = tid
    · simp [update, List.findIdx_cons, ha]
    · have hl : ∃ t ∈ l, t.id = tid := by
        rcases h with ⟨t, ht, htid⟩
        rcases List.mem_cons.mp ht with rfl | hmem
        · exact absurd htid ha
        · exact ⟨t, hmem, htid⟩
      have hbeq : (a.id == tid) = false := beq_eq_false_iff_ne.mpr ha
      simp [update, List.findIdx_cons, hbeq, ih hl]

theorem delete_eq_none {tasks : List Task} {tid : Nat} :
    delete tasks tid = none ↔ ∀ t ∈ tasks, t.id ≠ tid := by
  induction tasks with
  | nil => simp [delete]
  | cons a l ih =>
    by_cases ha : a.id = tid
    · simp [delete, ha]
    · have hstep : delete (a :: l) tid = none ↔ delete l tid = none := by
        simp only [delete, beq_iff_eq, ha, if_false]
        cases delete l tid <;> simp
      rw [hstep, ih]
      simp [List.forall_mem_cons, ha]

theorem delete_eq_some {tasks : List Task} {tid : Nat}
    (h : ∃ t ∈ tasks, t.id = tid) :
    delete tasks tid =
      some (tasks.eraseIdx (tasks.findIdx (fun t => t.id == tid))) := by
  induction tasks with
  | nil => simp at h
  | cons a l ih =>
    by_cases ha : a.id = tid
    · simp [delete, List.findIdx_cons, ha]
    · have hl : ∃ t ∈ l, t.id = tid := by
        rcases h with ⟨t, ht, htid⟩
        rcases List.mem_cons.mp ht with rfl | hmem
        · exact absurd htid ha
        · exact ⟨t, hmem, htid⟩
      have hbeq : (a.id == tid) = false := beq_eq_false_iff_ne.mpr ha
      simp [delete, List.findIdx_cons, hbeq, ih hl, List.eraseIdx]

theorem mem_of_update {tasks : List Task} {tid : Nat} {nt : Task} {l2 : List Task}
    (h : update tasks tid nt = some l2) :
    ∀ t ∈ l2, t = nt ∨ t ∈ tasks := by
  induction tasks generalizing l2 with
  | nil => simp [update] at h
  | cons a l ih =>
    by_cases ha : a.id = tid
    · simp only [update, beq_iff_eq, ha, if_true, Option.some.injEq] at h
      subst h
      intro t ht
      rcases List.mem_cons.mp ht with rfl | hmem
      · exact Or.inl rfl
      · exact Or.inr (List.mem_cons_of_mem a hmem)
    · simp only [update, beq_iff_eq, ha, if_false] at h
      cases hu : update l tid nt with
      | some rest2 =>
        rw [hu] at h
        simp only [Option.some.injEq] at h
        subst h
        intro t ht
        rcases List.mem_cons.mp ht with rfl | hmem
        · exact Or.inr (List.mem_cons_self t l)
        · rcases ih hu t hmem with h1 | h1
          · exact Or.inl h1
          · exact Or.inr (List.mem_cons_of_mem a h1)
      | none => rw [hu] at h; exact absurd h (Option.noConfusion)

theorem sublist_of_delete {tasks : List Task} {tid : Nat} {l2 : List Task}
    (h : delete tasks tid = some l2) : l2.Sublist tasks := by
  induction tasks generalizing l2 with
  | nil => simp [delete] at h
  | cons a l ih =>
    by_cases ha : a.id = tid
    · simp only [delete, beq_iff_eq, ha, if_true, Option.some.injEq] at h
      exact h ▸ List.sublist_cons_self a l
    · simp only [delete, beq_iff_eq, ha, if_false] at h
      cases hd : delete l tid with
      | some rest2 =>
        rw [hd] at h
        simp only [Option.some.injEq] at h
        exact h ▸ List.Sublist.cons₂ a (ih hd)
      | none => rw [hd] at h; exact absurd h (Option.noConfusion)

theorem update_map_id {tasks : List Task} {tid : Nat} {nt : Task} {l2 : List Task}
    (hid : nt.id = tid) (h : update tasks tid nt = some l2) :
    l2.map Task.id = tasks.map Task.id := by
  induction tasks generalizing l2 with
  | nil => simp [update] at h
  | cons a l ih =>
    by_cases ha : a.id = tid
    · simp only [update, beq_iff_eq, ha, if_true, Option.some.injEq] at h
      subst h
      simp [hid, ha]
    · simp only [update, beq_iff_eq, ha, if_false] at h
      cases hu : update l tid nt with
      | some rest2 =>
        rw [hu] at h
        simp only [Option.some.injEq] at h
        subst h
        simp [ih hu]
      | none => rw [hu] at h; exact absurd h (Option.noConfusion)

theorem get_update {tasks : List Task} {tid : Nat} {nt : Task} {l2 : List Task}
    (hid : nt.id = tid) (h : update tasks tid nt = some l2) :
    get l2 tid = some nt := by
  induction tasks generalizing l2 with
  | nil => simp [update] at h
  | cons a l ih =>
    by_cases ha : a.id = tid
    · simp only [update, beq_iff_eq, ha, if_true, Option.some.injEq] at h
      subst h
      simp [get, List.find?, hid]
    · simp only [update, beq_iff_eq, ha, if_false] at h
      cases hu : update l tid nt with
      | some rest2 =>
        rw [hu] at h
        simp only [Option.some.injEq] at h
        subst h
        have hbeq : (a.id == tid) = false := beq_eq_false_iff_ne.mpr ha
        simpa [get, List.find?, hbeq] using ih hu
      | none => rw [hu] at h; exact absurd h (Option.noConfusion)

theorem filter_length_delete {tasks : List Task} {tid : Nat} {l2 : List Task}
    (h : delete tasks tid = some l2) :
    (l2.filter (fun t => t.id == tid)).length + 1 =
      (tasks.filter (fun t => t.id == tid)).length := by
  induction tasks generalizing l2 with
  | nil => simp [delete] at h
  | cons a l ih =>
    by_cases ha : a.id = tid
    · simp only [delete, beq_iff_eq, ha, if_true, Option.some.injEq] at h
      subst h
      simp [List.filter, ha]
    · simp only [delete, beq_iff_eq, ha, if_false] at h
      cases hd : delete l tid with
      | some rest2 =>
        rw [hd] at h
        simp only [Option.some.injEq] at h
        subst h
        have hbeq : (a.id == tid) = false := beq_eq_false_iff_ne.mpr ha
        simp only [List.filter, hbeq]
        exact ih hd
      | none => rw [hd] at h; exact absurd h (Option.noConfusion)

end TaskRepository

/-! ### Reachability invariants -/

theorem get_tasks_snd (st : ServerState) (pid : Option Nat) :
    (get_tasks st pid).2 = st := by
  cases pid <;> rfl

theorem get_task_snd (st : ServerState) (tid : Nat) :
    (get_task st tid).2 = st := by
  unfold get_task
  cases TaskRepository.get st.tasks tid <;> rfl

theorem get_projects_snd (st : ServerState) (uid : Option Nat) :
    (get_projects st uid).2 = st := by
  cases uid <;> rfl

/-- Referential-integrity and id-bound invariant of every reachable state:
each Task references an existing Project, each Project an existing User,
and all Project and User identifiers are below the fresh-id counter. -/
theorem reachable_invariant (st : ServerState) (h : Reachable st) :
    (∀ t ∈ st.tasks, ∃ p ∈ st.projects, p.id = t.project_id) ∧
    (∀ p ∈ st.projects, ∃ u ∈ st.users, u.id = p.user_id) ∧
    (∀ u ∈ st.users, u.id < st.nextId) ∧
    (∀ p ∈ st.projects, p.id < st.nextId) := by
  induction h with
  | init => simp [initialState]
  | getTasks st pid _ ih => rwa [get_tasks_snd]
  | getTask st tid _ ih => rwa [get_task_snd]
  | getProjects st uid _ ih => rwa [get_projects_snd]
  | getUsers st _ ih => exact ih
  | createTask st td _ ih =>
    unfold create_task
    split
    · exact ih
    · rename_i hguard
      rw [not_not, List.any_eq_true] at hguard
      obtain ⟨p, hp, hpid⟩ := hguard
      obtain ⟨ih1, ih2, ih3, ih4⟩ := ih
      refine ⟨?_, ih2, fun u hu => Nat.lt_succ_of_lt (ih3 u hu),
        fun p2 hp2 => Nat.lt_succ_of_lt (ih4 p2 hp2)⟩
      intro t ht
      rcases List.mem_append.mp ht with hmem | hmem
      · exact ih1 t hmem
      · simp only [TaskRepository.create, List.mem_singleton] at hmem
        subst hmem
        exact ⟨p, hp, by simpa using hpid⟩
  | updateTask st tid t _ ih =>
    unfold update_task
    split
    · exact ih
    · rename_i hguard
      rw [not_not, List.any_eq_true] at hguard
      obtain ⟨p, hp, hpid⟩ := hguard
      obtain ⟨ih1, ih2, ih3, ih4⟩ := ih
      cases hu : TaskRepository.update st.tasks tid t with
      | some tasks2 =>
        simp only [hu]
        refine ⟨?_, ih2, ih3, ih4⟩
        intro t2 ht2
        rcases TaskRepository.mem_of_update hu t2 ht2 with rfl | hmem
        · exact ⟨p, hp, by simpa using hpid⟩
        · exact ih1 t2 hmem
      | none => simp only [hu]; exact ⟨ih1, ih2, ih3, ih4⟩
  | deleteTask st tid _ ih =>
    unfold delete_task
    cases hd : TaskRepository.delete st.tasks tid with
    | some tasks2 =>
      simp only [hd]
      obtain ⟨ih1, ih2, ih3, ih4⟩ := ih
      exact ⟨fun t2 ht2 =>
        ih1 t2 ((TaskRepository.sublist_of_delete hd).mem ht2), ih2, ih3, ih4⟩
    | none => simp only [hd]; exact ih
  | createProject st pd _ ih =>
    unfold create_project
    split
    · exact ih
    · rename_i hguard
      rw [not_not, List.any_eq_true] at hguard
      obtain ⟨u, hu, huid⟩ := hguard
      obtain ⟨ih1, ih2, ih3, ih4⟩ := ih
      refine ⟨?_, ?_, fun u2 hu2 => Nat.lt_succ_of_lt (ih3 u2 hu2), ?_⟩
      · intro t ht
        obtain ⟨p, hp, hpid⟩ := ih1 t ht
        exact ⟨p, List.mem_append_left _ hp, hpid⟩
      · intro p hp
        rcases List.mem_append.mp hp with hmem | hmem
        · exact ih2 p hmem
        · simp only [ProjectRepository.create, List.mem_singleton] at hmem
          subst hmem
          exact ⟨u, hu, by simpa using huid⟩
      · intro p hp
        rcases List.mem_append.mp hp with hmem | hmem
        · exact Nat.lt_succ_of_lt (ih4 p hmem)
        · simp only [ProjectRepository.create, List.mem_singleton] at hmem
          subst hmem
          exact Nat.lt_succ_self _
  | createUser st ud _ ih =>
    unfold create_user
    obtain ⟨ih1, ih2, ih3, ih4⟩ := ih
    refine ⟨ih1, ?_, ?_, fun p hp => Nat.lt_succ_of_lt (ih4 p hp)⟩
    · intro p hp
      obtain ⟨u, hu, huid⟩ := ih2 p hp
      exact ⟨u, List.mem_append_left _ hu, huid⟩
    · intro u hu
      rcases List.mem_append.mp hu with hmem | hmem
      · exact Nat.lt_succ_of_lt (ih3 u hmem)
      · simp only [UserRepository.create, List.mem_singleton] at hmem
        subst hmem
        exact Nat.lt_succ_self _

/-- States reachable from the empty initial stores when every task-update
request is id-consistent: the payload's `id` field equals the `task_id`
in the path.  This is the discipline well-behaved clients follow; the
endpoint itself does not enforce it. -/
inductive ReachableStrict : ServerState → Prop where
  | init : ReachableStrict initialState
  | getTasks (st : ServerState) (pid : Option Nat) :
      ReachableStrict st → ReachableStrict (get_tasks st pid).2
  | createTask (st : ServerState) (td : TaskCreate) :
      ReachableStrict st → ReachableStrict (create_task st td).2
  | getTask (st : ServerState) (tid : Nat) :
      ReachableStrict st → ReachableStrict (get_task st tid).2
  | updateTask (st : ServerState) (tid : Nat) (t : Task) :
      t.id = tid → ReachableStrict st → ReachableStrict (update_task st tid t).2
  | deleteTask (st : ServerState) (tid : Nat) :
      ReachableStrict st → ReachableStrict (delete_task st tid).2
  | getProjects (st : ServerState) (uid : Option Nat) :
      ReachableStrict st → ReachableStrict (get_projects st uid).2
  | createProject (st : ServerState) (pd : ProjectCreate) :
      ReachableStrict st → ReachableStrict (create_project st pd).2
  | getUsers (st : ServerState) :
      ReachableStrict st → ReachableStrict (get_users st).2
  | createUser (st : ServerState) (ud : UserCreate) :
      ReachableStrict st → ReachableStrict (create_user st ud).2

theorem nodup_concat_of_lt {l : List Nat} {n : Nat}
    (hlt : ∀ i ∈ l, i < n) (hnd : l.Nodup) : (l ++ [n]).Nodup := by
  rw [List.nodup_append]
  refine ⟨hnd, List.nodup_singleton n, ?_⟩
  intro i hi hin
  rw [List.mem_singleton] at hin
  subst hin
  exact absurd (hlt i hi) (lt_irrefl i)

/-- Under id-consistent traces every collection's identifier list stays
duplicate-free and bounded by the fresh-id counter. -/
theorem reachableStrict_invariant (st : ServerState) (h : ReachableStrict st) :
    (∀ i ∈ st.tasks.map Task.id, i < st.nextId) ∧
    (∀ i ∈ st.projects.map Project.id, i < st.nextId) ∧
    (∀ i ∈ st.users.map User.id, i < st.nextId) ∧
    (st.tasks.map Task.id).Nodup ∧
    (st.projects.map Project.id).Nodup ∧
    (st.users.map User.id).Nodup := by
  induction h with
  | init => simp [initialState]
  | getTasks st pid _ ih => rwa [get_tasks_snd]
  | getTask st tid _ ih => rwa [get_task_snd]
  | getProjects st uid _ ih => rwa [get_projects_snd]
  | getUsers st _ ih => exact ih
  | createTask st td _ ih =>
    unfold create_task
    split
    · exact ih
    · obtain ⟨ih1, ih2, ih3, ih4, ih5, ih6⟩ := ih
      simp only [TaskRepository.create, List.map_append, List.map_cons, List.map_nil]
      refine ⟨?_, fun i hi => Nat.lt_succ_of_lt (ih2 i hi),
        fun i hi => Nat.lt_succ_of_lt (ih3 i hi), ?_, ih5, ih6⟩
      · intro i hi
        rcases List.mem_append.mp hi with hmem | hmem
        · exact Nat.lt_succ_of_lt (ih1 i hmem)
        · simp only [List.mem_singleton] at hmem
          subst hmem
          exact Nat.lt_succ_self _
      · exact nodup_concat_of_lt ih1 ih4
  | updateTask st tid t hid _ ih =>
    unfold update_task
    split
    · exact ih
    · obtain ⟨ih1, ih2, ih3, ih4, ih5, ih6⟩ := ih
      cases hu : TaskRepository.update st.tasks tid t with
      | some tasks2 =>
        simp only [hu]
        rw [TaskRepository.update_map_id hid hu]
        exact ⟨ih1, ih2, ih3, ih4, ih5, ih6⟩
      | none => simp only [hu]; exact ⟨ih1, ih2, ih3, ih4, ih5, ih6⟩
  | deleteTask st tid _ ih =>
    unfold delete_task
    cases hd : TaskRepository.delete st.tasks tid with
    | some tasks2 =>
      simp only [hd]
      obtain ⟨ih1, ih2, ih3, ih4, ih5, ih6⟩ := ih
      have hsub : (tasks2.map Task.id).Sublist (st.tasks.map Task.id) :=
        (TaskRepository.sublist_of_delete hd).map Task.id
      exact ⟨fun i hi => ih1 i (hsub.mem hi), ih2, ih3, ih4.sublist hsub, ih5, ih6⟩
    | none => simp only [hd]; exact ih
  | createProject st pd _ ih =>
    unfold create_project
    split
    · exact ih
    · obtain ⟨ih1, ih2, ih3, ih4, ih5, ih6⟩ := ih
      simp only [ProjectRepository.create, List.map_append, List.map_cons, List.map_nil]
      refine ⟨fun i hi => Nat.lt_succ_of_lt (ih1 i hi), ?_,
        fun i hi => Nat.lt_succ_of_lt (ih3 i hi), ih4, ?_, ih6⟩
      · intro i hi
        rcases List.mem_append.mp hi with hmem | hmem
        · exact Nat.lt_succ_of_lt (ih2 i hmem)
        · simp only [List.mem_singleton] at hmem
          subst hmem
          exact Nat.lt_succ_self _
      · exact nodup_concat_of_lt ih2 ih5
  | createUser st ud _ ih =>
    unfold create_user
    obtain ⟨ih1, ih2, ih3, ih4, ih5, ih6⟩ := ih
    simp only [UserRepository.create, List.map_append, List.map_cons, List.map_nil]
    refine ⟨fun i hi => Nat.lt_succ_of_lt (ih1 i hi),
      fun i hi => Nat.lt_succ_of_lt (ih2 i hi), ?_, ih4, ih5, ?_⟩
    · intro i hi
      rcases List.mem_append.mp hi with hmem | hmem
      · exact Nat.lt_succ_of_lt (ih3 i hmem)
      · simp only [List.mem_singleton] at hmem
        subst hmem
        exact Nat.lt_succ_self _
    · exact nodup_concat_of_lt ih3 ih6

/-! ### Concrete demonstration states

A short client session: create a user "Ann" (id 0), a project "P" owned by
her (id 1), and a task "T" in that project (id 2). -/

def s_demo1 : ServerState := (create_user initialState ⟨"Ann"⟩).2

def s_demo2 : ServerState := (create_project s_demo1 ⟨"P", 0⟩).2

def s_demo3 : ServerState := (create_task s_demo2 ⟨"T", none, false, 1⟩).2

theorem reachable_s_demo1 : Reachable s_demo1 :=
  Reachable.createUser initialState ⟨"Ann"⟩ Reachable.init

theorem reachable_s_demo2 : Reachable s_demo2 :=
  Reachable.createProject s_demo1 ⟨"P", 0⟩ reachable_s_demo1

theorem reachable_s_demo3 : Reachable s_demo3 :=
  Reachable.createTask s_demo2 ⟨"T", none, false, 1⟩ reachable_s_demo2

theorem reachableStrict_s_demo3 : ReachableStrict s_demo3 :=
  ReachableStrict.createTask s_demo2 ⟨"T", none, false, 1⟩
    (ReachableStrict.createProject s_demo1 ⟨"P", 0⟩
      (ReachableStrict.createUser initialState ⟨"Ann"⟩ ReachableStrict.init))

/-- Continuing the session: a second task "B" (id 3) in project 1. -/
def s_dup0 : ServerState := (create_task s_demo3 ⟨"B", none, false, 1⟩).2

/-- Then `PUT /tasks/2` with a payload whose own `id` field is 3. -/
def s_dup : ServerState := (update_task s_dup0 2 ⟨"C", none, false, 1, 3⟩).2

theorem reachable_s_dup : Reachable s_dup :=
  Reachable.updateTask s_dup0 2 ⟨"C", none, false, 1, 3⟩
    (Reachable.createTask s_demo3 ⟨"B", none, false, 1⟩ reachable_s_demo3)

example : s_demo3 =
    ⟨[⟨"T", none, false, 1, 2⟩], [⟨"P", 0, 1⟩], [⟨"Ann", 0⟩], 3⟩ := by decide

example : s_dup.tasks.map Task.id = [3, 3] := by decide

/-! ### Claim theorems -/

/-- **C1**: in every state reachable from the empty initial stores by the
exposed endpoint operations, every stored Task's `project_id` equals the
`id` of some stored Project, and every stored Project's `user_id` equals
the `id` of some stored User. -/
theorem C1_referential_integrity (st : ServerState) (h : Reachable st) :
    (∀ t ∈ st.tasks, ∃ p ∈ st.projects, p.id = t.project_id) ∧
    (∀ p ∈ st.projects, ∃ u ∈ st.users, u.id = p.user_id) :=
  ⟨(reachable_invariant st h).1, (reachable_invariant st h).2.1⟩

/-- Witness for C1 at the concrete three-step session state. -/
theorem C1_referential_integrity_witness :
    (∀ t ∈ s_demo3.tasks, ∃ p ∈ s_demo3.projects, p.id = t.project_id) ∧
    (∀ p ∈ s_demo3.projects, ∃ u ∈ s_demo3.users, u.id = p.user_id) :=
  C1_referential_integrity s_demo3 reachable_s_demo3

/-- Every element of `l.take (l.findIdx p)` fails the scanned-for
predicate: `findIdx` names the first match. -/
theorem take_findIdx_all_false {α : Type} (p : α → Bool) (l : List α) :
    ∀ a ∈ l.take (l.findIdx p), p a = false := by
  induction l with
  | nil => simp
  | cons x l ih =>
    by_cases hx : p x
    · simp [List.findIdx_cons, hx]
    · have hx2 : p x = false := by simpa using hx
      rw [List.findIdx_cons, hx2, cond_false, List.take_succ_cons]
      intro a ha
      rcases List.mem_cons.mp ha with rfl | hmem
      · exact hx2
      · exact ih a hmem

/-- **C10**: when a stored Task matches `task_id`, `TaskRepository.update`
overwrites exactly the slot of the first match (`List.set` at the first
matching index) and `TaskRepository.delete` removes exactly that slot
(`List.eraseIdx` there), so every other element keeps its exact value and
the remaining order is preserved; the index is in range and everything
before it fails the id test. -/
theorem C10_first_match_only (tasks : List Task) (tid : Nat) (nt : Task)
    (h : ∃ t ∈ tasks, t.id = tid) :
    TaskRepository.update tasks tid nt =
      some (tasks.set (tasks.findIdx (fun t => t.id == tid)) nt) ∧
    TaskRepository.delete tasks tid =
      some (tasks.eraseIdx (tasks.findIdx (fun t => t.id == tid))) ∧
    tasks.findIdx (fun t => t.id == tid) < tasks.length ∧
    ∀ t0 ∈ tasks.take (tasks.findIdx (fun t => t.id == tid)), t0.id ≠ tid := by
  refine ⟨TaskRepository.update_eq_some nt h, TaskRepository.delete_eq_some h, ?_, ?_⟩
  · exact List.findIdx_lt_length_of_exists
      (by obtain ⟨t, ht, htid⟩ := h; exact ⟨t, ht, beq_iff_eq.mpr htid⟩)
  · intro t0 ht0
    have := take_findIdx_all_false (fun t => t.id == tid) tasks t0 ht0
    simpa using this

/-- Witness for C10: in the two-task store of the demo session, updating
and deleting task 2 rewrite exactly the first slot. -/
theorem C10_first_match_only_witness :
    TaskRepository.update s_dup0.tasks 2 ⟨"C", none, false, 1, 7⟩ =
      some (s_dup0.tasks.set (s_dup0.tasks.findIdx (fun t => t.id == 2))
        ⟨"C", none, false, 1, 7⟩) ∧
    TaskRepository.delete s_dup0.tasks 2 =
      some (s_dup0.tasks.eraseIdx (s_dup0.tasks.findIdx (fun t => t.id == 2))) ∧
    s_dup0.tasks.findIdx (fun t => t.id == 2) < s_dup0.tasks.length ∧
    ∀ t0 ∈ s_dup0.tasks.take (s_dup0.tasks.findIdx (fun t => t.id == 2)),
      t0.id ≠ 2 :=
  C10_first_match_only s_dup0.tasks 2 ⟨"C", none, false, 1, 7⟩ (by decide)

/-- **C2 counterexample**: a reachable state (user 0, project 1, tasks 2
and 3, then `PUT /tasks/2` with a payload whose `id` field is 3) in which
the task collection holds two records with the same identifier 3, the PUT
succeeded, and no record with identifier 2 — the one the path addressed —
remains. -/
theorem C2_counterexample :
    Reachable s_dup ∧
    ¬ (s_dup.tasks.map Task.id).Nodup ∧
    (update_task s_dup0 2 ⟨"C", none, false, 1, 3⟩).1 =
      .ok ⟨"C", none, false, 1, 3⟩ ∧
    TaskRepository.get s_dup.tasks 2 = none :=
  ⟨reachable_s_dup, by decide, by decide, by decide⟩

/-- **C2 (amended)**: in every state reachable from the empty stores by
endpoint operations in which each task-update payload's `id` equals the
addressed `task_id`, identifiers are pairwise distinct within each
collection; and an id-consistent task update never changes the stored
identifier list — in particular, when it succeeds the record reachable at
`task_id` is the payload, whose identifier is `task_id`.  (A `PUT
/tasks/{task_id}` whose payload carries a different `id` can, however,
overwrite the stored identifier and break uniqueness.) -/
theorem C2_amended_unique_immutable (st : ServerState) (h : ReachableStrict st) :
    (st.tasks.map Task.id).Nodup ∧
    (st.projects.map Project.id).Nodup ∧
    (st.users.map User.id).Nodup ∧
    (∀ tid : Nat, ∀ t : Task, t.id = tid →
      ((update_task st tid t).2.tasks.map Task.id = st.tasks.map Task.id) ∧
      (∀ tasks2 : List Task, TaskRepository.update st.tasks tid t = some tasks2 →
        TaskRepository.get tasks2 tid = some t)) := by
  obtain ⟨_, _, _, hnd1, hnd2, hnd3⟩ := reachableStrict_invariant st h
  refine ⟨hnd1, hnd2, hnd3, ?_⟩
  intro tid t hid
  constructor
  · unfold update_task
    split
    · rfl
    · cases hu : TaskRepository.update st.tasks tid t with
      | some tasks2 =>
        simp only [hu]
        exact TaskRepository.update_map_id hid hu
      | none => simp only [hu]
  · intro tasks2 hu
    exact TaskRepository.get_update hid hu

/-- Witness for the amended C2 at the concrete three-step session state. -/
theorem C2_amended_unique_immutable_witness :
    (s_demo3.tasks.map Task.id).Nodup ∧
    (s_demo3.projects.map Project.id).Nodup ∧
    (s_demo3.users.map User.id).Nodup ∧
    (∀ tid : Nat, ∀ t : Task, t.id = tid →
      ((update_task s_demo3 tid t).2.tasks.map Task.id =
        s_demo3.tasks.map Task.id) ∧
      (∀ tasks2 : List Task,
        TaskRepository.update s_demo3.tasks tid t = some tasks2 →
        TaskRepository.get tasks2 tid = some t)) :=
  C2_amended_unique_immutable s_demo3 reachableStrict_s_demo3

theorem any_projects_eq_true {projects : List Project} {pid : Nat}
    (h : ∃ p ∈ projects, p.id = pid) :
    projects.any (fun p => p.id == pid) = true := by
  obtain ⟨p, hp, hpid⟩ := h
  exact List.any_eq_true.mpr ⟨p, hp, beq_iff_eq.mpr hpid⟩

theorem any_projects_eq_false {projects : List Project} {pid : Nat}
    (h : ∀ p ∈ projects, p.id ≠ pid) :
    projects.any (fun p => p.id == pid) = false := by
  rw [← Bool.not_eq_true, List.any_eq_true]
  rintro ⟨p, hp, hpid⟩
  exact h p hp (beq_iff_eq.mp hpid)

/-- **C3**: when the payload's `project_id` names an existing Project,
`PUT /tasks/{task_id}` on a store containing a Task with id `task_id`
overwrites the slot of the first matching identifier with exactly the
provided payload — including the payload's own `id` field, which need not
equal `task_id` — and returns that payload; when no stored Task matches,
it signals 404 not-found with the state untouched. -/
theorem C3_update_replaces_payload (st : ServerState) (tid : Nat) (t : Task)
    (hp : ∃ p ∈ st.projects, p.id = t.project_id) :
    ((∃ t0 ∈ st.tasks, t0.id = tid) →
      update_task st tid t =
        (.ok t,
         { st with
             tasks := st.tasks.set (st.tasks.findIdx (fun t0 => t0.id == tid)) t })) ∧
    ((∀ t0 ∈ st.tasks, t0.id ≠ tid) →
      update_task st tid t = (.err 404 "Task not found", st)) := by
  have hany := any_projects_eq_true hp
  constructor
  · intro hmem
    simp only [update_task, hany, not_true_eq_false, if_false,
      TaskRepository.update_eq_some t hmem]
  · intro habs
    simp only [update_task, hany, not_true_eq_false, if_false,
      TaskRepository.update_eq_none.mpr habs]

/-- Witness for C3: in the demo state, `PUT /tasks/2` with a payload whose
own `id` is 7 stores exactly that payload at slot 0. -/
theorem C3_update_replaces_payload_witness :
    update_task s_demo3 2 ⟨"C", none, false, 1, 7⟩ =
      (.ok ⟨"C", none, false, 1, 7⟩,
       { s_demo3 with
           tasks := s_demo3.tasks.set
             (s_demo3.tasks.findIdx (fun t0 => t0.id == 2))
             ⟨"C", none, false, 1, 7⟩ }) :=
  (C3_update_replaces_payload s_demo3 2 ⟨"C", none, false, 1, 7⟩
    (by decide)).1 (by decide)

/-- **C4 counterexample**: at the empty initial state (no Task has id 5),
`PUT /tasks/5` with a payload referencing the nonexistent project 0
returns 400 "Project does not exist", not the 404 the claim promises for
every absent `task_id`: the project check runs first. -/
theorem C4_counterexample :
    (∀ t0 ∈ initialState.tasks, t0.id ≠ 5) ∧
    (update_task initialState 5 ⟨"T", none, false, 0, 6⟩).1 =
      .err 400 "Project does not exist" ∧
    (update_task initialState 5 ⟨"T", none, false, 0, 6⟩).1 ≠
      .err 404 "Task not found" := by decide

/-- **C4 (amended)**: `PUT /tasks/{task_id}` with an absent `task_id`
returns 404 provided the payload's `project_id` names an existing Project
(when it does not, the 400 project check fires first, even for an absent
`task_id`); and on any state, a payload whose `project_id` names no
existing Project yields 400 with the entire state — task store included —
exactly unchanged. -/
theorem C4_amended_put_status (st : ServerState) (tid : Nat) (t : Task) :
    ((∃ p ∈ st.projects, p.id = t.project_id) →
      (∀ t0 ∈ st.tasks, t0.id ≠ tid) →
      update_task st tid t = (.err 404 "Task not found", st)) ∧
    ((∀ p ∈ st.projects, p.id ≠ t.project_id) →
      update_task st tid t = (.err 400 "Project does not exist", st)) := by
  constructor
  · intro hp habs
    simp only [update_task, any_projects_eq_true hp, not_true_eq_false, if_false,
      TaskRepository.update_eq_none.mpr habs]
  · intro hnone
    simp only [update_task, any_projects_eq_false hnone, Bool.false_eq_true,
      not_false_eq_true, if_true]

/-- Witness for the amended C4: in the demo state (project 1 exists, no
task has id 5), `PUT /tasks/5` answers 404 and leaves the state as it was. -/
theorem C4_amended_put_status_witness :
    update_task s_demo2 5 ⟨"T", none, false, 1, 6⟩ =
      (.err 404 "Task not found", s_demo2) :=
  (C4_amended_put_status s_demo2 5 ⟨"T", none, false, 1, 6⟩).1
    (by decide) (by decide)

/-- **C5**: `POST /tasks` and `PUT /tasks/{task_id}` answer 400 with
detail "Project does not exist" exactly when no stored Project's `id`
equals the payload's `project_id`; and when such a Project exists,
`POST /tasks` appends a Task carrying the payload's fields and the freshly
generated identifier and returns it — an identifier distinct from every
stored Task id whenever those are below the generator's counter. -/
theorem C5_project_existence_check (st : ServerState) (td : TaskCreate)
    (tid : Nat) (t : Task) :
    ((create_task st td).1 = .err 400 "Project does not exist" ↔
      ¬ ∃ p ∈ st.projects, p.id = td.project_id) ∧
    ((update_task st tid t).1 = .err 400 "Project does not exist" ↔
      ¬ ∃ p ∈ st.projects, p.id = t.project_id) ∧
    ((∃ p ∈ st.projects, p.id = td.project_id) →
      create_task st td =
        (.ok ⟨td.title, td.description, td.completed, td.project_id, st.nextId⟩,
         { st with
             tasks := st.tasks ++
               [⟨td.title, td.description, td.completed, td.project_id, st.nextId⟩],
             nextId := st.nextId + 1 }) ∧
      ((∀ t0 ∈ st.tasks, t0.id < st.nextId) →
        ∀ t0 ∈ st.tasks, t0.id ≠ st.nextId)) := by
  refine ⟨?_, ?_, ?_⟩
  · by_cases hp : ∃ p ∈ st.projects, p.id = td.project_id
    · simp only [create_task, any_projects_eq_true hp, not_true_eq_false, if_false]
      simp [hp]
    · have hnone : ∀ p ∈ st.projects, p.id ≠ td.project_id := by
        intro p hmem heq
        exact hp ⟨p, hmem, heq⟩
      simp only [create_task, any_projects_eq_false hnone, Bool.false_eq_true,
        not_false_eq_true, if_true]
      simp [hp]
  · by_cases hp : ∃ p ∈ st.projects, p.id = t.project_id
    · simp only [update_task, any_projects_eq_true hp, not_true_eq_false, if_false]
      cases hu : TaskRepository.update st.tasks tid t with
      | some tasks2 => simp [hu, hp]
      | none => simp [hu, hp]
    · have hnone : ∀ p ∈ st.projects, p.id ≠ t.project_id := by
        intro p hmem heq
        exact hp ⟨p, hmem, heq⟩
      simp only [update_task, any_projects_eq_false hnone, Bool.false_eq_true,
        not_false_eq_true, if_true]
      simp [hp]
  · intro hp
    refine ⟨?_, ?_⟩
    · simp only [create_task, any_projects_eq_true hp, not_true_eq_false, if_false,
        TaskRepository.create]
    · intro hbound t0 ht0
      exact Nat.ne_of_lt (hbound t0 ht0)

/-- Witness for C5: creating task "T" in the demo state with only project 1
present appends it with the fresh identifier 2. -/
theorem C5_project_existence_check_witness :
    create_task s_demo2 ⟨"T", none, false, 1⟩ =
      (.ok ⟨"T", none, false, 1, s_demo2.nextId⟩,
       { s_demo2 with
           tasks := s_demo2.tasks ++ [⟨"T", none, false, 1, s_demo2.nextId⟩],
           nextId := s_demo2.nextId + 1 }) ∧
    ((∀ t0 ∈ s_demo2.tasks, t0.id < s_demo2.nextId) →
      ∀ t0 ∈ s_demo2.tasks, t0.id ≠ s_demo2.nextId) :=
  (C5_project_existence_check s_demo2 ⟨"T", none, false, 1⟩ 0
    ⟨"X", none, false, 1, 0⟩).2.2 (by decide)

theorem any_users_eq_true {users : List User} {uid : Nat}
    (h : ∃ u ∈ users, u.id = uid) :
    users.any (fun u => u.id == uid) = true := by
  obtain ⟨u, hu, huid⟩ := h
  exact List.any_eq_true.mpr ⟨u, hu, beq_iff_eq.mpr huid⟩

theorem any_users_eq_false {users : List User} {uid : Nat}
    (h : ∀ u ∈ users, u.id ≠ uid) :
    users.any (fun u => u.id == uid) = false := by
  rw [← Bool.not_eq_true, List.any_eq_true]
  rintro ⟨u, hu, huid⟩
  exact h u hu (beq_iff_eq.mp huid)

/-- **C6**: in a reachable state with no User of the given `user_id`,
`POST /projects` with that `user_id` answers 400 "User does not exist"
and returns the state unchanged; consequently no subsequent
`GET /projects` listing, filtered or not, contains a Project owned by
that `user_id`. -/
theorem C6_reject_project_unknown_user (st : ServerState) (pd : ProjectCreate)
    (h : Reachable st) (hu : ∀ u ∈ st.users, u.id ≠ pd.user_id) :
    create_project st pd = (.err 400 "User does not exist", st) ∧
    ∀ q : Option Nat, ∀ l : List Project,
      (get_projects (create_project st pd).2 q).1 = .ok l →
      ∀ p ∈ l, p.user_id ≠ pd.user_id := by
  have hrej : create_project st pd = (.err 400 "User does not exist", st) := by
    simp only [create_project, any_users_eq_false hu, Bool.false_eq_true,
      not_false_eq_true, if_true]
  have hstore : ∀ p ∈ st.projects, p.user_id ≠ pd.user_id := by
    intro p hp heq
    obtain ⟨u, humem, huid⟩ := (reachable_invariant st h).2.1 p hp
    exact hu u humem (heq ▸ huid)
  refine ⟨hrej, ?_⟩
  intro q l hl
  rw [hrej] at hl
  cases q with
  | none =>
    simp only [get_projects, Resp.ok.injEq] at hl
    subst hl
    exact hstore
  | some uid =>
    simp only [get_projects, Resp.ok.injEq] at hl
    subst hl
    intro p hp
    exact hstore p (List.mem_of_mem_filter hp)

/-- Witness for C6: rejecting project "Q" for the unknown user 99 in the
demo state. -/
theorem C6_reject_project_unknown_user_witness :
    create_project s_demo3 ⟨"Q", 99⟩ =
      (.err 400 "User does not exist", s_demo3) ∧
    ∀ q : Option Nat, ∀ l : List Project,
      (get_projects (create_project s_demo3 ⟨"Q", 99⟩).2 q).1 = .ok l →
      ∀ p ∈ l, p.user_id ≠ 99 :=
  C6_reject_project_unknown_user s_demo3 ⟨"Q", 99⟩ reachable_s_demo3 (by decide)

/-- **C7**: `POST /projects` naming an existing User succeeds, appending a
Project with the payload's fields and the fresh identifier; and on the
resulting state every filtered `GET /projects?user_id=uid` listing is the
order-preserving subsequence (a sublist) of the full listing holding
exactly the Projects whose `user_id` equals `uid`. -/
theorem C7_create_and_filter_projects (st : ServerState) (pd : ProjectCreate)
    (hu : ∃ u ∈ st.users, u.id = pd.user_id) :
    create_project st pd =
      (.ok ⟨pd.name, pd.user_id, st.nextId⟩,
       { st with
           projects := st.projects ++ [⟨pd.name, pd.user_id, st.nextId⟩],
           nextId := st.nextId + 1 }) ∧
    ∀ uid : Nat, ∃ l : List Project,
      (get_projects (create_project st pd).2 (some uid)).1 = .ok l ∧
      l.Sublist (create_project st pd).2.projects ∧
      ∀ p : Project, p ∈ l ↔ p ∈ (create_project st pd).2.projects ∧
        p.user_id = uid := by
  have hok : create_project st pd =
      (.ok ⟨pd.name, pd.user_id, st.nextId⟩,
       { st with
           projects := st.projects ++ [⟨pd.name, pd.user_id, st.nextId⟩],
           nextId := st.nextId + 1 }) := by
    simp only [create_project, any_users_eq_true hu, not_true_eq_false, if_false,
      ProjectRepository.create]
  refine ⟨hok, ?_⟩
  intro uid
  refine ⟨(create_project st pd).2.projects.filter (fun p => p.user_id == uid),
    rfl, List.filter_sublist _, ?_⟩
  intro p
  rw [List.mem_filter, beq_iff_eq]

/-- Witness for C7: creating project "P2" for user 0 on the demo state. -/
theorem C7_create_and_filter_projects_witness :
    create_project s_demo1 ⟨"P2", 0⟩ =
      (.ok ⟨"P2", 0, s_demo1.nextId⟩,
       { s_demo1 with
           projects := s_demo1.projects ++ [⟨"P2", 0, s_demo1.nextId⟩],
           nextId := s_demo1.nextId + 1 }) ∧
    ∀ uid : Nat, ∃ l : List Project,
      (get_projects (create_project s_demo1 ⟨"P2", 0⟩).2 (some uid)).1 = .ok l ∧
      l.Sublist (create_project s_demo1 ⟨"P2", 0⟩).2.projects ∧
      ∀ p : Project, p ∈ l ↔ p ∈ (create_project s_demo1 ⟨"P2", 0⟩).2.projects ∧
        p.user_id = uid :=
  C7_create_and_filter_projects s_demo1 ⟨"P2", 0⟩ (by decide)

/-- **C8**: on a state whose task store matches the given id exactly once,
`DELETE /tasks/{id}` succeeds with the body "Task deleted"; on the
resulting state no Task carries that id any more, so a second
`DELETE /tasks/{id}` answers 404 with the state unchanged. -/
theorem C8_delete_twice (st : ServerState) (tid : Nat)
    (h1 : (st.tasks.filter (fun t => t.id == tid)).length = 1) :
    ∃ st2 : ServerState,
      delete_task st tid = (.ok "Task deleted", st2) ∧
      st2.projects = st.projects ∧ st2.users = st.users ∧
      st2.nextId = st.nextId ∧
      (∀ t ∈ st2.tasks, t.id ≠ tid) ∧
      delete_task st2 tid = (.err 404 "Task not found", st2) := by
  have hex : ∃ t ∈ st.tasks, t.id = tid := by
    have hne : st.tasks.filter (fun t => t.id == tid) ≠ [] := by
      intro hnil
      rw [hnil] at h1
      simp at h1
    obtain ⟨t, ht⟩ := List.exists_mem_of_ne_nil _ hne
    have hmem := List.mem_filter.mp ht
    exact ⟨t, hmem.1, beq_iff_eq.mp hmem.2⟩
  have hdel := TaskRepository.delete_eq_some hex
  refine ⟨{ st with
    tasks := st.tasks.eraseIdx (st.tasks.findIdx (fun t => t.id == tid)) },
    ?_, rfl, rfl, rfl, ?_, ?_⟩
  · simp only [delete_task, hdel]
  · have hcount := TaskRepository.filter_length_delete hdel
    rw [h1] at hcount
    have hzero : ((st.tasks.eraseIdx
        (st.tasks.findIdx (fun t => t.id == tid))).filter
          (fun t => t.id == tid)).length = 0 := by omega
    intro t ht htid
    have hmem : t ∈ (st.tasks.eraseIdx
        (st.tasks.findIdx (fun t => t.id == tid))).filter
          (fun t => t.id == tid) :=
      List.mem_filter.mpr ⟨ht, beq_iff_eq.mpr htid⟩
    rw [List.length_eq_zero.mp hzero] at hmem
    exact absurd hmem (List.not_mem_nil t)
  · have hcount := TaskRepository.filter_length_delete hdel
    rw [h1] at hcount
    have hzero : ((st.tasks.eraseIdx
        (st.tasks.findIdx (fun t => t.id == tid))).filter
          (fun t => t.id == tid)).length = 0 := by omega
    have hnone : TaskRepository.delete
        (st.tasks.eraseIdx (st.tasks.findIdx (fun t => t.id == tid))) tid =
          none := by
      rw [TaskRepository.delete_eq_none]
      intro t ht htid
      have hmem : t ∈ (st.tasks.eraseIdx
          (st.tasks.findIdx (fun t => t.id == tid))).filter
            (fun t => t.id == tid) :=
        List.mem_filter.mpr ⟨ht, beq_iff_eq.mpr htid⟩
      rw [List.length_eq_zero.mp hzero] at hmem
      exact absurd hmem (List.not_mem_nil t)
    simp only [delete_task, hnone]

/-- Witness for C8: deleting task 2 from the demo state, then deleting it
again. -/
theorem C8_delete_twice_witness :
    ∃ st2 : ServerState,
      delete_task s_demo3 2 = (.ok "Task deleted", st2) ∧
      st2.projects = s_demo3.projects ∧ st2.users = s_demo3.users ∧
      st2.nextId = s_demo3.nextId ∧
      (∀ t ∈ st2.tasks, t.id ≠ 2) ∧
      delete_task st2 2 = (.err 404 "Task not found", st2) :=
  C8_delete_twice s_demo3 2 (by decide)

/-- **C9**: `POST /users` always succeeds, appending a User with the
payload's name and the freshly generated identifier — distinct from every
User id already stored in a reachable state — and the subsequent
`GET /users` listing is the old listing (creation order kept) with the new
User at the end, containing the new identifier exactly once. -/
theorem C9_create_user_fresh (st : ServerState) (ud : UserCreate)
    (h : Reachable st) :
    create_user st ud =
      (.ok ⟨ud.name, st.nextId⟩,
       { st with
           users := st.users ++ [⟨ud.name, st.nextId⟩],
           nextId := st.nextId + 1 }) ∧
    (∀ u ∈ st.users, u.id ≠ st.nextId) ∧
    (get_users (create_user st ud).2).1 =
      .ok (st.users ++ [⟨ud.name, st.nextId⟩]) ∧
    ((create_user st ud).2.users.filter (fun u => u.id == st.nextId)).length
      = 1 := by
  have hbound := (reachable_invariant st h).2.2.1
  have hfresh : ∀ u ∈ st.users, u.id ≠ st.nextId :=
    fun u hu => Nat.ne_of_lt (hbound u hu)
  have husers : (create_user st ud).2.users =
      st.users ++ [⟨ud.name, st.nextId⟩] := rfl
  refine ⟨rfl, hfresh, rfl, ?_⟩
  rw [husers, List.filter_append]
  have hnil : st.users.filter (fun u => u.id == st.nextId) = [] := by
    rw [List.filter_eq_nil_iff]
    intro u hu
    simpa using hfresh u hu
  rw [hnil]
  simp

/-- Witness for C9: creating user "Bob" on the demo state. -/
theorem C9_create_user_fresh_witness :
    create_user s_demo3 ⟨"Bob"⟩ =
      (.ok ⟨"Bob", s_demo3.nextId⟩,
       { s_demo3 with
           users := s_demo3.users ++ [⟨"Bob", s_demo3.nextId⟩],
           nextId := s_demo3.nextId + 1 }) ∧
    (∀ u ∈ s_demo3.users, u.id ≠ s_demo3.nextId) ∧
    (get_users (create_user s_demo3 ⟨"Bob"⟩).2).1 =
      .ok (s_demo3.users ++ [⟨"Bob", s_demo3.nextId⟩]) ∧
    ((create_user s_demo3 ⟨"Bob"⟩).2.users.filter
      (fun u => u.id == s_demo3.nextId)).length = 1 :=
  C9_create_user_fresh s_demo3 ⟨"Bob"⟩ reachable_s_demo3

end TodoApp
